import Mathlib

/-!
Verification of the `srcfiles` crate (Rust crate source-file discovery).

The worklist driver, `process_source`, `visit_source` and
`propagate_parent_file` are translated from `src/lib.rs`; the descriptor
data model is translated from `src/source_desc.rs`.  The filesystem, the
external parser and the syntax visitor (module `visitor.rs`, not present
in the sources) are abstracted as an environment record, and the
aggregator / error types (modules `error.rs`, `mod_path.rs`, not present
in the sources) are modelled from the specification.  The Rust
`while let Some(source) = source_queue.pop()` loop is embedded with
explicit fuel, since nothing in the code bounds the queue.
-/

namespace Srcfiles

/-- Filesystem paths (`std::path::PathBuf`), kept abstract as strings. -/
abbrev Path := String

/-- Type of module paths (`ModType` in `source_desc.rs`):
`Adjacent` is "modname.rs", `ModRs` is "modname/mod.rs". -/
inductive ModType where
  | Adjacent
  | ModRs
deriving DecidableEq, Repr

/-- Modelled from the spec: the `ModuleStack` — the declared-module-name
chain from crate root to the current file, paired with the directory that
owns unqualified child lookups (module `mod_path.rs` is not in `src/`). -/
structure ModStack where
  names : List String
  dir : Path
deriving DecidableEq, Repr

/-- Type of source file (`SourceFileType` in `source_desc.rs`). -/
inductive SourceFileType where
  /-- Rust source module. -/
  | RustSource (mod_type : ModType)
  /-- Included Rust code. -/
  | RustSnippet (mod_stack : ModStack)
  /-- Included raw bytes. -/
  | Bytes
  /-- Included string data. -/
  | String
deriving DecidableEq, Repr

/-- A discovered source file (`SourceFileDesc` in `source_desc.rs`). -/
structure SourceFileDesc where
  path : Path
  file_type : SourceFileType
  parent_file : Option Path
deriving DecidableEq, Repr

/-- `SourceFileDesc::new` from `source_desc.rs`. -/
def SourceFileDesc.new (path : Path) (file_type : SourceFileType)
    (parent_file : Option Path) : SourceFileDesc :=
  { path := path, file_type := file_type, parent_file := parent_file }

/-- Modelled from the spec: the error taxonomy (module `error.rs` is not in
`src/`): a missing module file carrying the attempted candidate descriptor,
a parse failure, and an I/O (open/read) failure. -/
inductive Error where
  | MissingFile (candidate : SourceFileDesc)
  | ParseFailure (path : Path) (cause : String)
  | IoFailure (path : Path) (cause : String)
deriving DecidableEq, Repr

/-- Modelled from the spec: `ModPath` pairs a module file path with its
naming convention (module `mod_path.rs` is not in `src/`). -/
structure ModPath where
  path : Path
  mod_type : ModType
deriving DecidableEq, Repr

/-- `ModPath::new`, modelled from the spec (module `mod_path.rs` is not in
`src/`). -/
def ModPath.new (path : Path) (mod_type : ModType) : ModPath :=
  { path := path, mod_type := mod_type }

/-- Modelled from the spec: the black-box parse result of the external
parser — "given file text, returns a structured syntax tree or a parse
error"; the tree itself is opaque to the driver. -/
structure SynFile where
  text : String
deriving DecidableEq, Repr

/-- Modelled from the spec: the Syntax Visitor configuration
(module `visitor.rs` is not in `src/`): built either from a module stack
(`SourceFinder::new`, for included snippets) or from a module path
(`SourceFinder::from_mod_path`, for source modules). -/
inductive SourceFinder where
  | ofStack (mod_stack : ModStack)
  | ofModPath (mp : ModPath)
deriving DecidableEq, Repr

/-- `SourceFinder::new`, modelled from the spec (module `visitor.rs` is not
in `src/`). -/
def SourceFinder.new (mod_stack : ModStack) : SourceFinder :=
  SourceFinder.ofStack mod_stack

/-- `SourceFinder::from_mod_path`, modelled from the spec (module
`visitor.rs` is not in `src/`). -/
def SourceFinder.from_mod_path (mp : ModPath) : SourceFinder :=
  SourceFinder.ofModPath mp

/-- Modelled from the spec: the external collaborators of the driver —
filesystem open and read, the black-box parser — together with the Syntax
Visitor walk (module `visitor.rs` is not in `src/`), packaged as an
environment record.  `visitFile` returns the visitor's accumulated
`source_candidates` and `unresolved_items` after walking the tree. -/
structure Env where
  fileOpen : Path → Except Error Unit
  readToString : Path → Except Error String
  parseFile : String → Except Error SynFile
  visitFile : SourceFinder → SynFile → List SourceFileDesc × List Error

/-- Modelled from the spec: the Result Aggregator (`SourcesAndErrors` in
module `error.rs`, not in `src/`): the ordered sequence of
(descriptor, errors) pairs accumulated over a run. -/
structure SourcesAndErrors where
  sources : List (SourceFileDesc × List Error)
deriving DecidableEq, Repr

/-- `SourcesAndErrors::new`, modelled from the spec. -/
def SourcesAndErrors.new (sources : List (SourceFileDesc × List Error)) :
    SourcesAndErrors :=
  { sources := sources }

/-- `SourcesAndErrors::into_sources`, modelled from the spec: "On success,
returns just the flat descriptor list". -/
def SourcesAndErrors.into_sources (s : SourcesAndErrors) : List SourceFileDesc :=
  s.sources.map Prod.fst

/-- `SourcesAndErrors::get_sources`, modelled from the spec: the caller
"can still extract the full set of descriptors that were resolved". -/
def SourcesAndErrors.get_sources (s : SourcesAndErrors) : List SourceFileDesc :=
  s.sources.map Prod.fst

/-- `SourcesAndErrors::into_errors`, modelled from the spec and the test
suite: the flat list of (descriptor, error) pairs. -/
def SourcesAndErrors.into_errors (s : SourcesAndErrors) :
    List (SourceFileDesc × Error) :=
  s.sources.flatMap (fun e => e.2.map (fun err => (e.1, err)))

/-- `propagate_parent_file` from `lib.rs`: set every candidate's
`parent_file` to the visited file's path. -/
def propagate_parent_file (path : Path) (source_descs_slice : List SourceFileDesc) :
    List SourceFileDesc :=
  source_descs_slice.map (fun source_desc => { source_desc with parent_file := some path })

/-- `visit_source` from `lib.rs`: open the file, read it, parse it, walk
the tree, tag the candidates with the parent path, and return the
candidates together with the visitor's unresolved errors.  Each of the
open / read / parse steps short-circuits with its error. -/
def visit_source (env : Env) (path : Path) (source_finder : SourceFinder) :
    Except Error (List SourceFileDesc × List Error) :=
  match env.fileOpen path with
  | .error e => .error e
  | .ok _ =>
    match env.readToString path with
    | .error e => .error e
    | .ok content =>
      match env.parseFile content with
      | .error e => .error e
      | .ok ast =>
        match env.visitFile source_finder ast with
        | (source_candidates, unresolved_items) =>
          .ok (propagate_parent_file path source_candidates, unresolved_items)

/-- `process_source` from `lib.rs`: opaque inclusions produce nothing and
touch nothing; snippets and source modules are visited. -/
def process_source (env : Env) (source : SourceFileDesc) :
    Except Error (List SourceFileDesc × List Error) :=
  match source.file_type with
  | SourceFileType.Bytes => .ok ([], [])
  | SourceFileType.String => .ok ([], [])
  | SourceFileType.RustSnippet mod_stack =>
      visit_source env source.path (SourceFinder.new mod_stack)
  | SourceFileType.RustSource mod_type =>
      visit_source env source.path
        (SourceFinder.from_mod_path (ModPath.new source.path mod_type))

/-- `Vec::pop` on the Rust worklist: remove and return the LAST element.
Returns the remaining front together with the popped element. -/
def vecPop {α : Type} : List α → Option (List α × α)
  | [] => none
  | [a] => some ([], a)
  | a :: b :: rest =>
    match vecPop (b :: rest) with
    | none => none
    | some (front, last) => some (a :: front, last)

/-- The `while let Some(source) = source_queue.pop()` loop of
`mod_srcfiles` in `lib.rs`, with explicit fuel: on `Ok` the children are
appended to the queue and the entry is recorded with the visitor's local
errors; on `Err` the entry is recorded with that single error and the
loop continues.  `none` means the fuel ran out before the queue drained. -/
def runLoopFuel (env : Env) :
    Nat → List SourceFileDesc → List (SourceFileDesc × List Error) →
    Option (List (SourceFileDesc × List Error))
  | 0, source_queue, acc =>
    match vecPop source_queue with
    | none => some acc
    | some _ => none
  | fuel + 1, source_queue, acc =>
    match vecPop source_queue with
    | none => some acc
    | some (rest, source) =>
      match process_source env source with
      | .ok (sources, src_errors) =>
          runLoopFuel env fuel (rest ++ sources) (acc ++ [(source, src_errors)])
      | .error e =>
          runLoopFuel env fuel rest (acc ++ [(source, [e])])

/-- The descriptor seeded for the root of a run (`mod_srcfiles` pushes
exactly this before the loop). -/
def rootDesc (mod_path : ModPath) : SourceFileDesc :=
  SourceFileDesc.new mod_path.path
    (SourceFileType.RustSource mod_path.mod_type) none

/-- The initial worklist of `mod_srcfiles`: exactly the root descriptor. -/
def initialQueue (mod_path : ModPath) : List SourceFileDesc :=
  [rootDesc mod_path]

/-- `mod_srcfiles` from `lib.rs`: seed the queue with the root descriptor,
drain it, then return `Ok` with the flat source list when every recorded
entry has no errors, and `Err` with the accumulated data otherwise. -/
def mod_srcfiles (env : Env) (fuel : Nat) (mod_path : ModPath) :
    Option (Except SourcesAndErrors (List SourceFileDesc)) :=
  match runLoopFuel env fuel (initialQueue mod_path) [] with
  | none => none
  | some sources =>
    let result := SourcesAndErrors.new sources
    if result.sources.all (fun x => x.2.isEmpty) then
      some (Except.ok result.into_sources)
    else
      some (Except.error result)

/-- `crate_srcfiles` from `lib.rs`: run `mod_srcfiles` on the root path
with the `ModRs` (directory-index) convention. -/
def crate_srcfiles (env : Env) (fuel : Nat) (path : Path) :
    Option (Except SourcesAndErrors (List SourceFileDesc)) :=
  mod_srcfiles env fuel (ModPath.new path ModType.ModRs)

/-- The children a descriptor contributes to the queue when it is
processed: the candidate list on success, nothing on failure. -/
def emitted (env : Env) (source : SourceFileDesc) : List SourceFileDesc :=
  match process_source env source with
  | .ok (sources, _) => sources
  | .error _ => []

/-! ### Concrete environments and inputs used to exercise the driver -/

/-- An environment in which every file opens, reads to the empty string,
parses, and the visitor discovers nothing. -/
def envEmptyVisit : Env :=
  { fileOpen := fun _ => Except.ok ()
    readToString := fun _ => Except.ok ""
    parseFile := fun s => Except.ok { text := s }
    visitFile := fun _ _ => ([], []) }

/-- An environment in which opening any file fails with an I/O error. -/
def envFailOpen : Env :=
  { fileOpen := fun p => Except.error (Error.IoFailure p "permission denied")
    readToString := fun _ => Except.ok ""
    parseFile := fun s => Except.ok { text := s }
    visitFile := fun _ _ => ([], []) }

/-- An environment in which every visited file declares two opaque
byte inclusions that resolve to the same path "x" — two references whose
resolved paths coincide, as in scenario E of the specification. -/
def envDup : Env :=
  { fileOpen := fun _ => Except.ok ()
    readToString := fun _ => Except.ok ""
    parseFile := fun s => Except.ok { text := s }
    visitFile := fun _ _ =>
      ([SourceFileDesc.new "x" SourceFileType.Bytes none,
        SourceFileDesc.new "x" SourceFileType.Bytes none], []) }

/-- An environment in which every visited file resolves one child module
back to the file "r" itself — the self-referential resolution a path
override like a file `r` declaring a module with an override pointing at
`r` produces. -/
def envCyc : Env :=
  { fileOpen := fun _ => Except.ok ()
    readToString := fun _ => Except.ok ""
    parseFile := fun s => Except.ok { text := s }
    visitFile := fun _ _ =>
      ([SourceFileDesc.new "r" (SourceFileType.RustSource ModType.ModRs) none], []) }

/-- A run diverges when no amount of fuel drains its worklist: the Rust
loop, which has no fuel bound, never finishes popping the queue. -/
def divergesOn (env : Env) (mod_path : ModPath) : Prop :=
  ∀ fuel : Nat, mod_srcfiles env fuel mod_path = none

/-- The root module path used by the concrete runs. -/
def mpMain : ModPath := ModPath.new "main.rs" ModType.ModRs

/-- An opaque byte-inclusion descriptor used by the concrete runs. -/
def bytesDesc : SourceFileDesc :=
  SourceFileDesc.new "data.bin" SourceFileType.Bytes none

/-! ### Helper lemmas about the worklist loop -/

theorem vecPop_nil {α : Type} : vecPop ([] : List α) = none := rfl

theorem vecPop_append_singleton {α : Type} (xs : List α) (a : α) :
    vecPop (xs ++ [a]) = some (xs, a) := by
  induction xs with
  | nil => rfl
  | cons x xs ih =>
    cases hxs : xs ++ [a] with
    | nil => cases xs <;> simp at hxs
    | cons b rest =>
      have hstep : vecPop (x :: xs ++ [a]) =
          match vecPop (xs ++ [a]) with
          | none => none
          | some (front, last) => some (x :: front, last) := by
        rw [List.cons_append, hxs]
        rfl
      rw [hstep, ih]

theorem vecPop_eq_none {α : Type} : ∀ (q : List α), vecPop q = none → q = [] := by
  intro q
  induction q with
  | nil => intro _; rfl
  | cons x rest ih =>
    intro h
    cases rest with
    | nil => simp [vecPop] at h
    | cons b rest2 =>
      simp only [vecPop] at h
      cases hv : vecPop (b :: rest2) with
      | none => exact absurd (ih hv) (by simp)
      | some p =>
        simp only [hv] at h
        exact Option.noConfusion h

theorem vecPop_eq_some {α : Type} :
    ∀ (q front : List α) (a : α), vecPop q = some (front, a) → q = front ++ [a] := by
  intro q
  induction q with
  | nil => intro front a h; simp [vecPop] at h
  | cons x rest ih =>
    intro front a h
    cases rest with
    | nil =>
      simp only [vecPop, Option.some.injEq, Prod.mk.injEq] at h
      rw [← h.1, ← h.2]
      rfl
    | cons b rest2 =>
      simp only [vecPop] at h
      cases hv : vecPop (b :: rest2) with
      | none =>
        simp only [hv] at h
        exact Option.noConfusion h
      | some p =>
        obtain ⟨f, l⟩ := p
        simp only [hv, Option.some.injEq, Prod.mk.injEq] at h
        obtain ⟨h1, h2⟩ := h
        rw [← h1, ← h2, ih f l hv]
        simp

/-- The accumulator is only appended to: every completed run extends it. -/
theorem runLoopFuel_prefix (env : Env) :
    ∀ (fuel : Nat) (q : List SourceFileDesc)
      (acc res : List (SourceFileDesc × List Error)),
      runLoopFuel env fuel q acc = some res → ∃ tail, res = acc ++ tail := by
  intro fuel
  induction fuel with
  | zero =>
    intro q acc res h
    simp only [runLoopFuel] at h
    cases hv : vecPop q with
    | none => simp only [hv] at h; exact ⟨[], by simpa using h.symm⟩
    | some p =>
      simp only [hv] at h
      exact Option.noConfusion h
  | succ n ih =>
    intro q acc res h
    simp only [runLoopFuel] at h
    cases hv : vecPop q with
    | none => simp only [hv] at h; exact ⟨[], by simpa using h.symm⟩
    | some p =>
      obtain ⟨rest, source⟩ := p
      simp only [hv] at h
      cases hp : process_source env source with
      | ok pr =>
        obtain ⟨sources, src_errors⟩ := pr
        simp only [hp] at h
        obtain ⟨tail, ht⟩ := ih _ _ _ h
        exact ⟨(source, src_errors) :: tail, by simpa using ht⟩
      | error e =>
        simp only [hp] at h
        obtain ⟨tail, ht⟩ := ih _ _ _ h
        exact ⟨(source, [e]) :: tail, by simpa using ht⟩

/-- Conservation over a completed run: the processed entries beyond the
incoming accumulator are, as a multiset, exactly the queue contents plus
every child emitted while processing them. -/
theorem runLoopFuel_conservation (env : Env) :
    ∀ (fuel : Nat) (q : List SourceFileDesc)
      (acc res : List (SourceFileDesc × List Error)),
      runLoopFuel env fuel q acc = some res →
      ∃ tail, res = acc ++ tail ∧
        (tail.map Prod.fst).Perm
          (q ++ tail.flatMap (fun e => emitted env e.1)) := by
  intro fuel
  induction fuel with
  | zero =>
    intro q acc res h
    simp only [runLoopFuel] at h
    cases hv : vecPop q with
    | none =>
      simp only [hv] at h
      refine ⟨[], by simpa using h.symm, ?_⟩
      rw [vecPop_eq_none q hv]
      simp
    | some p =>
      simp only [hv] at h
      exact Option.noConfusion h
  | succ n ih =>
    intro q acc res h
    simp only [runLoopFuel] at h
    cases hv : vecPop q with
    | none =>
      simp only [hv] at h
      refine ⟨[], by simpa using h.symm, ?_⟩
      rw [vecPop_eq_none q hv]
      simp
    | some p =>
      obtain ⟨rest, source⟩ := p
      simp only [hv] at h
      have hq : q = rest ++ [source] := vecPop_eq_some q rest source hv
      cases hp : process_source env source with
      | ok pr =>
        obtain ⟨sources, src_errors⟩ := pr
        simp only [hp] at h
        obtain ⟨tail, ht, hperm⟩ := ih _ _ _ h
        refine ⟨(source, src_errors) :: tail, by simpa using ht, ?_⟩
        have hem : emitted env source = sources := by
          simp [emitted, hp]
        simp only [List.map_cons, List.flatMap_cons, hem, hq]
        rw [List.append_assoc] at hperm
        refine List.Perm.trans (hperm.cons source) ?_
        have hshape : rest ++ [source] ++
            (sources ++ tail.flatMap (fun e => emitted env e.1))
            = rest ++ source ::
              (sources ++ tail.flatMap (fun e => emitted env e.1)) := by
          simp
        rw [hshape]
        exact List.perm_middle.symm
      | error e =>
        simp only [hp] at h
        obtain ⟨tail, ht, hperm⟩ := ih _ _ _ h
        refine ⟨(source, [e]) :: tail, by simpa using ht, ?_⟩
        have hem : emitted env source = [] := by
          simp [emitted, hp]
        simp only [List.map_cons, List.flatMap_cons, hem, hq]
        refine List.Perm.trans (hperm.cons source) ?_
        have hshape : rest ++ [source] ++
            ([] ++ tail.flatMap (fun e => emitted env e.1))
            = rest ++ source :: tail.flatMap (fun e => emitted env e.1) := by
          simp
        rw [hshape]
        exact List.perm_middle.symm

/-- Draining an empty queue returns the accumulator unchanged, whatever
the fuel. -/
theorem runLoopFuel_nil (env : Env) (fuel : Nat)
    (acc : List (SourceFileDesc × List Error)) :
    runLoopFuel env fuel [] acc = some acc := by
  cases fuel <;> rfl

/-- Descriptors tagged by `propagate_parent_file` all carry the given
parent path. -/
theorem propagate_parent_file_parent (path : Path)
    (descs : List SourceFileDesc) :
    ∀ d ∈ propagate_parent_file path descs, d.parent_file = some path := by
  intro d hd
  simp only [propagate_parent_file, List.mem_map] at hd
  obtain ⟨d0, _, hd0⟩ := hd
  rw [← hd0]

/-- Candidates returned by a successful `visit_source` all carry the
visited path as their parent. -/
theorem visit_source_parent (env : Env) (path : Path) (sf : SourceFinder)
    (cs : List SourceFileDesc) (errs : List Error)
    (h : visit_source env path sf = Except.ok (cs, errs)) :
    ∀ d ∈ cs, d.parent_file = some path := by
  unfold visit_source at h
  cases h1 : env.fileOpen path with
  | error e =>
    simp only [h1] at h
    exact Except.noConfusion h
  | ok u =>
    simp only [h1] at h
    cases h2 : env.readToString path with
    | error e =>
      simp only [h2] at h
      exact Except.noConfusion h
    | ok content =>
      simp only [h2] at h
      cases h3 : env.parseFile content with
      | error e =>
        simp only [h3] at h
        exact Except.noConfusion h
      | ok ast =>
        simp only [h3] at h
        cases h4 : env.visitFile sf ast with
        | mk cands unres =>
          simp only [h4, Except.ok.injEq, Prod.mk.injEq] at h
          rw [← h.1]
          exact propagate_parent_file_parent path cands

/-- Children of a successfully processed source all carry the processed
source's path as their parent. -/
theorem process_source_parent (env : Env) (source : SourceFileDesc)
    (children : List SourceFileDesc) (errs : List Error)
    (h : process_source env source = Except.ok (children, errs)) :
    ∀ d ∈ children, d.parent_file = some source.path := by
  unfold process_source at h
  cases hft : source.file_type with
  | Bytes =>
    simp only [hft, Except.ok.injEq, Prod.mk.injEq] at h
    rw [← h.1]
    intro d hd
    exact absurd hd (List.not_mem_nil d)
  | String =>
    simp only [hft, Except.ok.injEq, Prod.mk.injEq] at h
    rw [← h.1]
    intro d hd
    exact absurd hd (List.not_mem_nil d)
  | RustSnippet mod_stack =>
    simp only [hft] at h
    exact visit_source_parent env source.path _ children errs h
  | RustSource mod_type =>
    simp only [hft] at h
    exact visit_source_parent env source.path _ children errs h

/-- Invariant preservation over the loop: any property of descriptors that
holds of every emitted child also holds of every recorded entry, provided
it holds of the queue and of the incoming accumulator. -/
theorem runLoopFuel_all (env : Env) (P : SourceFileDesc → Prop)
    (hchild : ∀ source d, d ∈ emitted env source → P d) :
    ∀ (fuel : Nat) (q : List SourceFileDesc)
      (acc res : List (SourceFileDesc × List Error)),
      runLoopFuel env fuel q acc = some res →
      (∀ d ∈ q, P d) → (∀ e ∈ acc, P e.1) → ∀ e ∈ res, P e.1 := by
  intro fuel
  induction fuel with
  | zero =>
    intro q acc res h hq hacc
    simp only [runLoopFuel] at h
    cases hv : vecPop q with
    | none =>
      simp only [hv] at h
      obtain rfl := Option.some_inj.mp h
      exact hacc
    | some p =>
      simp only [hv] at h
      exact Option.noConfusion h
  | succ n ih =>
    intro q acc res h hq hacc
    simp only [runLoopFuel] at h
    cases hv : vecPop q with
    | none =>
      simp only [hv] at h
      obtain rfl := Option.some_inj.mp h
      exact hacc
    | some p =>
      obtain ⟨rest, source⟩ := p
      simp only [hv] at h
      have hq' : q = rest ++ [source] := vecPop_eq_some q rest source hv
      have hsrc : P source := hq source (by rw [hq']; simp)
      have hrest : ∀ d ∈ rest, P d := fun d hd => hq d (by rw [hq']; simp [hd])
      cases hp : process_source env source with
      | ok pr =>
        obtain ⟨sources, src_errors⟩ := pr
        simp only [hp] at h
        refine ih _ _ _ h ?_ ?_
        · intro d hd
          rcases List.mem_append.mp hd with hd | hd
          · exact hrest d hd
          · refine hchild source d ?_
            simp [emitted, hp, hd]
        · intro e he
          rcases List.mem_append.mp he with he | he
          · exact hacc e he
          · simp only [List.mem_singleton] at he
            rw [he]
            exact hsrc
      | error er =>
        simp only [hp] at h
        refine ih _ _ _ h hrest ?_
        intro e he
        rcases List.mem_append.mp he with he | he
        · exact hacc e he
        · simp only [List.mem_singleton] at he
          rw [he]
          exact hsrc

/-- A run seeded with a single descriptor records that descriptor as its
first entry. -/
theorem runLoopFuel_first (env : Env) (fuel : Nat) (d : SourceFileDesc)
    (res : List (SourceFileDesc × List Error))
    (h : runLoopFuel env fuel [d] [] = some res) :
    ∃ errs tail, res = (d, errs) :: tail := by
  cases fuel with
  | zero =>
    simp only [runLoopFuel, vecPop] at h
    exact Option.noConfusion h
  | succ n =>
    simp only [runLoopFuel, vecPop] at h
    cases hp : process_source env d with
    | ok pr =>
      obtain ⟨sources, src_errors⟩ := pr
      simp only [hp] at h
      obtain ⟨tail, ht⟩ := runLoopFuel_prefix env n _ _ _ h
      exact ⟨src_errors, tail, by simpa using ht⟩
    | error e =>
      simp only [hp] at h
      obtain ⟨tail, ht⟩ := runLoopFuel_prefix env n _ _ _ h
      exact ⟨[e], tail, by simpa using ht⟩

/-- Each unit of fuel processes at most one descriptor: the recorded
entries grow by at most the fuel spent. -/
theorem runLoopFuel_length (env : Env) :
    ∀ (fuel : Nat) (q : List SourceFileDesc)
      (acc res : List (SourceFileDesc × List Error)),
      runLoopFuel env fuel q acc = some res → res.length ≤ acc.length + fuel := by
  intro fuel
  induction fuel with
  | zero =>
    intro q acc res h
    simp only [runLoopFuel] at h
    cases hv : vecPop q with
    | none =>
      simp only [hv] at h
      obtain rfl := Option.some_inj.mp h
      simp
    | some p =>
      simp only [hv] at h
      exact Option.noConfusion h
  | succ n ih =>
    intro q acc res h
    simp only [runLoopFuel] at h
    cases hv : vecPop q with
    | none =>
      simp only [hv] at h
      obtain rfl := Option.some_inj.mp h
      omega
    | some p =>
      obtain ⟨rest, source⟩ := p
      simp only [hv] at h
      cases hp : process_source env source with
      | ok pr =>
        obtain ⟨sources, src_errors⟩ := pr
        simp only [hp] at h
        have := ih _ _ _ h
        simp only [List.length_append, List.length_singleton] at this
        omega
      | error e =>
        simp only [hp] at h
        have := ih _ _ _ h
        simp only [List.length_append, List.length_singleton] at this
        omega

/-- `mod_srcfiles` in terms of the loop's outcome: `Ok` with the flat
list when no entry carries errors, `Err` with the accumulated data
otherwise. -/
theorem mod_srcfiles_cases (env : Env) (fuel : Nat) (mod_path : ModPath)
    (sources : List (SourceFileDesc × List Error))
    (h : runLoopFuel env fuel (initialQueue mod_path) [] = some sources) :
    mod_srcfiles env fuel mod_path =
      (if sources.all (fun x => x.2.isEmpty)
       then some (Except.ok (sources.map Prod.fst))
       else some (Except.error (SourcesAndErrors.new sources))) := by
  unfold mod_srcfiles
  rw [h]
  rfl

/-- In `envCyc` the loop never drains: every processed source re-emits a
source-module descriptor for "r", so any queue of source modules stays
nonempty forever. -/
theorem runLoopFuel_cyc_none :
    ∀ (fuel : Nat) (q : List SourceFileDesc)
      (acc : List (SourceFileDesc × List Error)),
      q ≠ [] → (∀ d ∈ q, ∃ t, d.file_type = SourceFileType.RustSource t) →
      runLoopFuel envCyc fuel q acc = none := by
  intro fuel
  induction fuel with
  | zero =>
    intro q acc hne hall
    simp only [runLoopFuel]
    cases hv : vecPop q with
    | none => exact absurd (vecPop_eq_none q hv) hne
    | some p => rfl
  | succ n ih =>
    intro q acc hne hall
    simp only [runLoopFuel]
    cases hv : vecPop q with
    | none => exact absurd (vecPop_eq_none q hv) hne
    | some p =>
      obtain ⟨rest, source⟩ := p
      have hq : q = rest ++ [source] := vecPop_eq_some q rest source hv
      obtain ⟨t, hft⟩ := hall source (by rw [hq]; simp)
      have hp : process_source envCyc source =
          Except.ok
            ([SourceFileDesc.new "r" (SourceFileType.RustSource ModType.ModRs)
                (some source.path)], []) := by
        cases t <;>
          simp [process_source, hft, visit_source, envCyc,
            propagate_parent_file, SourceFileDesc.new]
      simp only [hp]
      refine ih _ _ (by simp) ?_
      intro d hd
      rcases List.mem_append.mp hd with hd | hd
      · exact hall d (by rw [hq]; exact List.mem_append.mpr (Or.inl hd))
      · simp only [List.mem_singleton] at hd
        rw [hd]
        exact ⟨ModType.ModRs, rfl⟩

/-! ### The claims -/

/-- C1: the run returns `Ok` exactly when every recorded
(descriptor, errors) entry has an empty error sequence; in that case the
flat list of all discovered `SourceFileDesc` values is returned, and
otherwise it returns `Err` carrying the same accumulated
(descriptor, errors) data. -/
theorem c1_ok_iff_no_errors (env : Env) (fuel : Nat) (mod_path : ModPath)
    (recorded : List (SourceFileDesc × List Error))
    (h : runLoopFuel env fuel (initialQueue mod_path) [] = some recorded) :
    (mod_srcfiles env fuel mod_path =
        some (Except.ok (recorded.map Prod.fst)) ↔ ∀ e ∈ recorded, e.2 = [])
    ∧ ((∃ e ∈ recorded, e.2 ≠ []) →
        mod_srcfiles env fuel mod_path =
          some (Except.error (SourcesAndErrors.new recorded))) := by
  have hcases := mod_srcfiles_cases env fuel mod_path recorded h
  have hiff : (recorded.all (fun x => x.2.isEmpty) = true) ↔ ∀ e ∈ recorded, e.2 = [] := by
    rw [List.all_eq_true]
    constructor
    · intro ha e he
      exact List.isEmpty_iff.mp (ha e he)
    · intro ha e he
      exact List.isEmpty_iff.mpr (ha e he)
  by_cases hb : recorded.all (fun x => x.2.isEmpty) = true
  · rw [hb] at hcases
    simp only [if_true] at hcases
    refine ⟨⟨fun _ => hiff.mp hb, fun _ => hcases⟩, ?_⟩
    intro ⟨e, he, hne⟩
    exact absurd (hiff.mp hb e he) hne
  · rw [Bool.not_eq_true] at hb
    rw [hb] at hcases
    simp only [Bool.false_eq_true, if_false] at hcases
    refine ⟨⟨?_, ?_⟩, fun _ => hcases⟩
    · intro heq
      rw [hcases] at heq
      exact absurd (Option.some_inj.mp heq) (fun hx => Except.noConfusion hx)
    · intro hall
      exact absurd (hiff.mpr hall) (by rw [hb]; exact fun hx => Bool.noConfusion hx)

/-- C1 witness: a concrete error-free run is classified `Ok` with the flat
source list. -/
theorem c1_witness :
    (mod_srcfiles envEmptyVisit 1 mpMain =
        some (Except.ok ([(rootDesc mpMain, ([] : List Error))].map Prod.fst)) ↔
      ∀ e ∈ [(rootDesc mpMain, ([] : List Error))], e.2 = [])
    ∧ ((∃ e ∈ [(rootDesc mpMain, ([] : List Error))], e.2 ≠ []) →
        mod_srcfiles envEmptyVisit 1 mpMain =
          some (Except.error
            (SourcesAndErrors.new [(rootDesc mpMain, ([] : List Error))]))) :=
  c1_ok_iff_no_errors envEmptyVisit 1 mpMain
    [(rootDesc mpMain, ([] : List Error))] (by rfl)

/-- C2: an open, read, or parse failure while processing a queued source
is recorded as exactly one error attached to that source's entry, the
source contributes no children to the queue, and the driver continues
with every other queued item; a failing source that is the whole queue
(in particular a root whose file cannot be opened) still yields a
completed run with that one failure recorded. -/
theorem c2_errors_are_local (env : Env) (n : Nat) (rest : List SourceFileDesc)
    (source : SourceFileDesc) (acc : List (SourceFileDesc × List Error))
    (e : Error) (h : process_source env source = Except.error e) :
    runLoopFuel env (n + 1) (rest ++ [source]) acc
      = runLoopFuel env n rest (acc ++ [(source, [e])])
    ∧ runLoopFuel env (n + 1) [source] [] = some [(source, [e])] := by
  constructor
  · simp only [runLoopFuel, vecPop_append_singleton, h]
  · simp only [runLoopFuel, vecPop, h]
    rw [List.nil_append]
    exact runLoopFuel_nil env n [(source, [e])]

/-- C2 witness: a root whose file cannot be opened is recorded with
exactly that I/O failure and the run completes. -/
theorem c2_witness :
    runLoopFuel envFailOpen (0 + 1) ([] ++ [rootDesc mpMain]) []
      = runLoopFuel envFailOpen 0 []
          ([] ++ [(rootDesc mpMain, [Error.IoFailure "main.rs" "permission denied"])])
    ∧ runLoopFuel envFailOpen (0 + 1) [rootDesc mpMain] []
      = some [(rootDesc mpMain, [Error.IoFailure "main.rs" "permission denied"])] :=
  c2_errors_are_local envFailOpen 0 [] (rootDesc mpMain) []
    (Error.IoFailure "main.rs" "permission denied") (by rfl)

/-- C3: a popped descriptor whose file type is `Bytes` or `String`
(opaque inclusion) produces zero child descriptors and zero errors, and
the file is never opened, read, or parsed: the outcome is independent of
the environment. -/
theorem c3_opaque_never_opened (env env2 : Env) (source : SourceFileDesc)
    (h : source.file_type = SourceFileType.Bytes ∨
         source.file_type = SourceFileType.String) :
    process_source env source = Except.ok ([], [])
    ∧ process_source env source = process_source env2 source := by
  rcases h with h | h <;>
    exact ⟨by simp [process_source, h], by simp [process_source, h]⟩

/-- C3 witness: a concrete byte-inclusion descriptor yields no children
and no errors, in an environment where every open fails no less than in
one where every open succeeds. -/
theorem c3_witness :
    process_source envFailOpen bytesDesc = Except.ok ([], [])
    ∧ process_source envFailOpen bytesDesc = process_source envEmptyVisit bytesDesc :=
  c3_opaque_never_opened envFailOpen envEmptyVisit bytesDesc (Or.inl rfl)

/-- C4: for every root path, `crate_srcfiles` runs the driver on a
worklist seeded with exactly one descriptor — the root path with the
directory-index (`ModRs`) naming convention and no parent. -/
theorem c4_seed (env : Env) (fuel : Nat) (path : Path) :
    crate_srcfiles env fuel path
        = mod_srcfiles env fuel (ModPath.new path ModType.ModRs)
    ∧ initialQueue (ModPath.new path ModType.ModRs)
        = [SourceFileDesc.new path (SourceFileType.RustSource ModType.ModRs) none]
    ∧ (rootDesc (ModPath.new path ModType.ModRs)).parent_file = none :=
  ⟨rfl, rfl, rfl⟩

/-- C5: in every run result the root descriptor has no parent, every
recorded descriptor without a parent is the root, and every child emitted
by visiting a file carries that file's path as its parent — assigned by
`propagate_parent_file` immediately after the visit. -/
theorem c5_parent_assignment (env : Env) (fuel : Nat) (mod_path : ModPath)
    (res : List (SourceFileDesc × List Error))
    (h : runLoopFuel env fuel (initialQueue mod_path) [] = some res) :
    (rootDesc mod_path).parent_file = none
    ∧ (∀ e ∈ res, e.1.parent_file = none → e.1 = rootDesc mod_path)
    ∧ (∀ source children errs,
        process_source env source = Except.ok (children, errs) →
        ∀ d ∈ children, d.parent_file = some source.path) := by
  refine ⟨rfl, ?_, ?_⟩
  · refine runLoopFuel_all env
      (fun d => d.parent_file = none → d = rootDesc mod_path) ?_ fuel _ _ _ h ?_ ?_
    · intro source d hd hnone
      unfold emitted at hd
      cases hp : process_source env source with
      | ok pr =>
        obtain ⟨cs, errs⟩ := pr
        simp only [hp] at hd
        have := process_source_parent env source cs errs hp d hd
        rw [hnone] at this
        exact Option.noConfusion this
      | error er =>
        simp only [hp] at hd
        exact absurd hd (List.not_mem_nil d)
    · intro d hd
      simp only [initialQueue, List.mem_singleton] at hd
      intro _
      exact hd
    · intro e he
      exact absurd he (List.not_mem_nil e)
  · intro source children errs hp
    exact process_source_parent env source children errs hp

/-- C5 witness: in the concrete error-free run the only recorded
descriptor with no parent is the root, and a concrete successful visit
tags its children (here none) with the visited path. -/
theorem c5_witness :
    (rootDesc mpMain).parent_file = none
    ∧ (∀ e ∈ [(rootDesc mpMain, ([] : List Error))],
        e.1.parent_file = none → e.1 = rootDesc mpMain)
    ∧ (∀ source children errs,
        process_source envEmptyVisit source = Except.ok (children, errs) →
        ∀ d ∈ children, d.parent_file = some source.path) :=
  c5_parent_assignment envEmptyVisit 1 mpMain
    [(rootDesc mpMain, ([] : List Error))] (by rfl)

/-- C6: whether the run ends `Ok` or `Err`, the root descriptor is
present in the returned sources view — the `Ok` list, or `get_sources`
of the carried `Err` value. -/
theorem c6_root_present (env : Env) (fuel : Nat) (mod_path : ModPath)
    (r : Except SourcesAndErrors (List SourceFileDesc))
    (h : mod_srcfiles env fuel mod_path = some r) :
    (∀ l, r = Except.ok l → rootDesc mod_path ∈ l)
    ∧ (∀ sae, r = Except.error sae → rootDesc mod_path ∈ sae.get_sources) := by
  cases hr : runLoopFuel env fuel (initialQueue mod_path) [] with
  | none =>
    have hnone : mod_srcfiles env fuel mod_path = none := by
      unfold mod_srcfiles
      rw [hr]
    rw [hnone] at h
    exact Option.noConfusion h
  | some sources =>
    rw [mod_srcfiles_cases env fuel mod_path sources hr] at h
    obtain ⟨errs, tail, hst⟩ := runLoopFuel_first env fuel (rootDesc mod_path)
      sources hr
    have hmem : rootDesc mod_path ∈ sources.map Prod.fst := by
      rw [hst]
      simp
    by_cases hb : sources.all (fun x => x.2.isEmpty) = true
    · rw [if_pos hb] at h
      have hr2 := Option.some_inj.mp h
      constructor
      · intro l hl
        rw [← hr2] at hl
        have : (SourcesAndErrors.new sources).into_sources = l :=
          Except.ok.inj hl
        rw [← this]
        exact hmem
      · intro sae hsae
        rw [← hr2] at hsae
        exact absurd hsae (fun hx => Except.noConfusion hx)
    · rw [if_neg hb] at h
      have hr2 := Option.some_inj.mp h
      constructor
      · intro l hl
        rw [← hr2] at hl
        exact absurd hl (fun hx => Except.noConfusion hx)
      · intro sae hsae
        rw [← hr2] at hsae
        have : SourcesAndErrors.new sources = sae := Except.error.inj hsae
        rw [← this]
        exact hmem

/-- C6 witness: the concrete error-free run's `Ok` list contains the
root descriptor. -/
theorem c6_witness :
    (∀ l, (Except.ok [rootDesc mpMain] :
        Except SourcesAndErrors (List SourceFileDesc)) = Except.ok l →
      rootDesc mpMain ∈ l)
    ∧ (∀ sae, (Except.ok [rootDesc mpMain] :
        Except SourcesAndErrors (List SourceFileDesc)) = Except.error sae →
      rootDesc mpMain ∈ sae.get_sources) :=
  c6_root_present envEmptyVisit 1 mpMain (Except.ok [rootDesc mpMain]) (by rfl)

/-- C7: the driver never deduplicates — when the worklist contains two
descriptors naming the same file path, both are processed and both appear
as separate entries in the run result. -/
theorem c7_no_dedup (env : Env) (fuel : Nat) (q : List SourceFileDesc)
    (res : List (SourceFileDesc × List Error)) (p : Path)
    (h : runLoopFuel env fuel q [] = some res)
    (hdup : 2 ≤ (q.filter (fun d => d.path == p)).length) :
    2 ≤ ((res.map Prod.fst).filter (fun d => d.path == p)).length := by
  obtain ⟨tail, ht, hperm⟩ := runLoopFuel_conservation env fuel q [] res h
  rw [List.nil_append] at ht
  subst ht
  have hlen := (hperm.filter (fun d => d.path == p)).length_eq
  rw [List.filter_append, List.length_append] at hlen
  omega

/-- C7 witness: two queued descriptors for the same path both end up as
entries of the result. -/
theorem c7_witness :
    2 ≤ ((([(bytesDesc, ([] : List Error)), (bytesDesc, [])]).map Prod.fst).filter
          (fun d => d.path == "data.bin")).length :=
  c7_no_dedup envEmptyVisit 2 [bytesDesc, bytesDesc]
    [(bytesDesc, []), (bytesDesc, [])] "data.bin" (by rfl) (by decide)

/-- C8 counterexample: a run in which two references resolve to the same
path "x" records that path twice as a processed entry, so a path does not
appear at most once in the run result. -/
theorem c8_counterexample :
    runLoopFuel envDup 3 (initialQueue mpMain) [] =
      some [(rootDesc mpMain, []),
        (SourceFileDesc.new "x" SourceFileType.Bytes (some "main.rs"), []),
        (SourceFileDesc.new "x" SourceFileType.Bytes (some "main.rs"), [])]
    ∧ 2 ≤ ((([(rootDesc mpMain, ([] : List Error)),
        (SourceFileDesc.new "x" SourceFileType.Bytes (some "main.rs"), []),
        (SourceFileDesc.new "x" SourceFileType.Bytes (some "main.rs"), [])]).map
          Prod.fst).filter (fun d => d.path == "x")).length :=
  ⟨by rfl, by decide⟩

/-- C8 amended: a filesystem path appears as a processed entry exactly as
many times as descriptors naming it were added to the worklist — once per
seed occurrence plus once per emitted child with that path; the driver
never collapses them. -/
theorem c8_amended_multiplicity (env : Env) (fuel : Nat)
    (q : List SourceFileDesc) (res : List (SourceFileDesc × List Error))
    (p : Path) (h : runLoopFuel env fuel q [] = some res) :
    ((res.map Prod.fst).filter (fun d => d.path == p)).length
      = (q.filter (fun d => d.path == p)).length
        + ((res.flatMap (fun e => emitted env e.1)).filter
            (fun d => d.path == p)).length := by
  obtain ⟨tail, ht, hperm⟩ := runLoopFuel_conservation env fuel q [] res h
  rw [List.nil_append] at ht
  subst ht
  have hlen := (hperm.filter (fun d => d.path == p)).length_eq
  rw [List.filter_append, List.length_append] at hlen
  exact hlen

/-- C8 amended witness: in the duplicate-path run, path "x" is recorded
exactly twice — zero seed occurrences plus two emitted children. -/
theorem c8_amended_witness :
    ((([(rootDesc mpMain, ([] : List Error)),
        (SourceFileDesc.new "x" SourceFileType.Bytes (some "main.rs"), []),
        (SourceFileDesc.new "x" SourceFileType.Bytes (some "main.rs"), [])]).map
          Prod.fst).filter (fun d => d.path == "x")).length
      = ((initialQueue mpMain).filter (fun d => d.path == "x")).length
        + ((([(rootDesc mpMain, ([] : List Error)),
            (SourceFileDesc.new "x" SourceFileType.Bytes (some "main.rs"), []),
            (SourceFileDesc.new "x" SourceFileType.Bytes (some "main.rs"), [])]).flatMap
              (fun e => emitted envDup e.1)).filter
            (fun d => d.path == "x")).length :=
  c8_amended_multiplicity envDup 3 (initialQueue mpMain)
    [(rootDesc mpMain, []),
      (SourceFileDesc.new "x" SourceFileType.Bytes (some "main.rs"), []),
      (SourceFileDesc.new "x" SourceFileType.Bytes (some "main.rs"), [])]
    "x" (by rfl)

/-- C9 counterexample: with a self-referential resolution — the file "r"
re-emitting a source-module descriptor for "r", as a path-override cycle
produces — the worklist loop never drains: no amount of fuel completes
the run, so the loop does not terminate on every input. -/
theorem c9_counterexample :
    divergesOn envCyc (ModPath.new "r" ModType.ModRs) := by
  intro fuel
  have hq : runLoopFuel envCyc fuel
      (initialQueue (ModPath.new "r" ModType.ModRs)) [] = none := by
    refine runLoopFuel_cyc_none fuel _ [] (by simp [initialQueue]) ?_
    intro d hd
    simp only [initialQueue, List.mem_singleton] at hd
    rw [hd]
    exact ⟨ModType.ModRs, rfl⟩
  unfold mod_srcfiles
  rw [hq]

/-- C9 amended: a run completes exactly when the queue drains within the
available steps; when it does, the work performed is one processing step
per discovered descriptor — the recorded entries number exactly the seeds
plus every emitted child, and never exceed the steps available — but a
cyclic resolution keeps the queue nonempty forever. -/
theorem c9_amended_work_eq_discovered (env : Env) (fuel : Nat)
    (q : List SourceFileDesc) (res : List (SourceFileDesc × List Error))
    (h : runLoopFuel env fuel q [] = some res) :
    res.length = q.length + (res.flatMap (fun e => emitted env e.1)).length
    ∧ res.length ≤ fuel := by
  obtain ⟨tail, ht, hperm⟩ := runLoopFuel_conservation env fuel q [] res h
  rw [List.nil_append] at ht
  subst ht
  constructor
  · have := hperm.length_eq
    simpa using this
  · simpa using runLoopFuel_length env fuel q [] res h

/-- C9 amended witness: the concrete one-file run records exactly one
entry — the seed plus zero children — within one step of fuel. -/
theorem c9_amended_witness :
    ([(rootDesc mpMain, ([] : List Error))]).length
      = [rootDesc mpMain].length
        + (([(rootDesc mpMain, ([] : List Error))]).flatMap
            (fun e => emitted envEmptyVisit e.1)).length
    ∧ ([(rootDesc mpMain, ([] : List Error))]).length ≤ 1 :=
  c9_amended_work_eq_discovered envEmptyVisit 1 [rootDesc mpMain]
    [(rootDesc mpMain, [])] (by rfl)

/-- C10: conservation of descriptors — the descriptors recorded in the
final result are, as a multiset, exactly the root seed together with
every child emitted by any visit of the run: nothing discovered is
dropped or recorded twice. -/
theorem c10_conservation (env : Env) (fuel : Nat) (mod_path : ModPath)
    (res : List (SourceFileDesc × List Error))
    (h : runLoopFuel env fuel (initialQueue mod_path) [] = some res) :
    (res.map Prod.fst).Perm
      (initialQueue mod_path ++ res.flatMap (fun e => emitted env e.1)) := by
  obtain ⟨tail, ht, hperm⟩ :=
    runLoopFuel_conservation env fuel (initialQueue mod_path) [] res h
  rw [List.nil_append] at ht
  subst ht
  exact hperm

/-- C10 witness: the duplicate-path run's entries are a permutation of
the seed plus the two emitted children. -/
theorem c10_witness :
    (([(rootDesc mpMain, ([] : List Error)),
        (SourceFileDesc.new "x" SourceFileType.Bytes (some "main.rs"), []),
        (SourceFileDesc.new "x" SourceFileType.Bytes (some "main.rs"), [])]).map
          Prod.fst).Perm
      (initialQueue mpMain ++
        ([(rootDesc mpMain, ([] : List Error)),
          (SourceFileDesc.new "x" SourceFileType.Bytes (some "main.rs"), []),
          (SourceFileDesc.new "x" SourceFileType.Bytes (some "main.rs"), [])]).flatMap
            (fun e => emitted envDup e.1)) :=
  c10_conservation envDup 3 mpMain
    [(rootDesc mpMain, []),
      (SourceFileDesc.new "x" SourceFileType.Bytes (some "main.rs"), []),
      (SourceFileDesc.new "x" SourceFileType.Bytes (some "main.rs"), [])]
    (by rfl)

end Srcfiles
